import Mathlib

/-!
Verification development for the `github-cleaner` repository.

The Python source (`api/services/github_service.py`, `api/services/cache.py`)
is shallowly embedded below.  Python strings are modelled as `List Char`
(named `PyStr`), so that every operation reduces in the kernel; Python's
`str` methods used by the source (`strip`, `lower`, `split`, `replace`,
`startswith`, `endswith`, `in`) are modelled one-to-one by the `py*`
helpers.  Fallible Python code is modelled with `Option`/`Except`:
a `GithubException` raised by the PyGithub accessor is an `Option`
returning `none` (when the source catches it) or `PyErr.githubException`
(when it escapes), and an uncaught `AttributeError` is
`PyErr.attributeError`.  File paths are modelled as lists of path
components (`List PyStr`); the hosting API hands the source fully formed
`content.path` values, which the embedding reconstructs component-wise.
Real wall-clock time is modelled by passing the current time (for the
cache) or the precomputed day difference (for the health check) as an
explicit argument.
-/

/-- Python strings, modelled as lists of characters so that every string
operation used by the source reduces definitionally. -/
abbrev PyStr := List Char

/-- The whitespace set of Python's `str.strip()` / `str.split()` (ASCII part;
the manifests and secrets scanned by the source are ASCII text). -/
def pyIsSpace (c : Char) : Bool :=
  c = ' ' || c = '\t' || c = '\n' || c = '\r' || c = '\x0b' || c = '\x0c'

/-- Python `s.lower()` (ASCII behaviour, which is all the source relies on). -/
def pyLower (s : PyStr) : PyStr := s.map Char.toLower

/-- Strip characters satisfying `p` from both ends (Python `str.strip(chars)`). -/
def pyStripP (p : Char → Bool) (s : PyStr) : PyStr :=
  ((s.dropWhile p).reverse.dropWhile p).reverse

/-- Python `s.strip()` with no argument: strip whitespace. -/
def pyStrip (s : PyStr) : PyStr := pyStripP pyIsSpace s

/-- Python `s.strip(c)` for a single character `c`. -/
def pyStripChar (c : Char) (s : PyStr) : PyStr := pyStripP (· = c) s

/-- Python `needle in hay` for strings: contiguous-substring test.
`"" in s` is `True`, matching Python. -/
def pyContains (needle : PyStr) : PyStr → Bool
  | [] => needle.isEmpty
  | c :: rest => needle.isPrefixOf (c :: rest) || pyContains needle rest

/-- Python `s.startswith(p)`. -/
def pyStartsWith (p s : PyStr) : Bool := p.isPrefixOf s

/-- Python `s.endswith(p)`. -/
def pyEndsWith (p s : PyStr) : Bool := p.isSuffixOf s

/-- Split on a single separator character keeping empty pieces
(Python `s.split(sep)` for a one-character `sep`). -/
def splitOnCharP (sep : Char) : PyStr → List PyStr
  | [] => [[]]
  | c :: rest =>
    let r := splitOnCharP sep rest
    if c = sep then [] :: r
    else match r with
      | [] => [[c]]
      | piece :: pieces => (c :: piece) :: pieces

/-- Python `s.split('\n')`. -/
def pySplitLines (s : PyStr) : List PyStr := splitOnCharP '\n' s

/-- The part of `s` before the first occurrence of the (nonempty) separator:
Python `s.split(sep)[0]`.  When `sep` does not occur, this is all of `s`. -/
def pyBefore (sep : PyStr) : PyStr → PyStr
  | [] => []
  | c :: rest =>
    if sep.isPrefixOf (c :: rest) then []
    else c :: pyBefore sep rest

/-- The part of `s` after the first `=`: Python `s.split('=', 1)[1]`
(used by the source only on lines known to contain `=`). -/
def pyAfterEq (s : PyStr) : PyStr := (s.dropWhile (· ≠ '=')).drop 1

/-- Split on runs of whitespace dropping empty pieces: Python `s.split()`. -/
def pySplitWs (s : PyStr) : List PyStr :=
  (splitOnCharP ' ' (s.map (fun c => if pyIsSpace c then ' ' else c))).filter
    (fun piece => !piece.isEmpty)

/-- Fuel-driven worker for `pyReplace`; fuel `s.length` always suffices
because each step consumes at least one character. -/
def pyReplaceFuel (pat repl : PyStr) : Nat → PyStr → PyStr
  | _, [] => []
  | 0, s => s
  | fuel + 1, c :: rest =>
    if !pat.isEmpty && pat.isPrefixOf (c :: rest) then
      repl ++ pyReplaceFuel pat repl fuel ((c :: rest).drop pat.length)
    else
      c :: pyReplaceFuel pat repl fuel rest

/-- Python `s.replace(pat, repl)`: replace every non-overlapping occurrence,
scanning left to right. -/
def pyReplace (pat repl s : PyStr) : PyStr := pyReplaceFuel pat repl s.length s

/-- Python `", ".join(xs)`. -/
def pyJoin (sep : PyStr) (xs : List PyStr) : PyStr := List.intercalate sep xs

deriving instance DecidableEq for Except

/-- Uncaught Python exceptions that the embedded code can surface. -/
inductive PyErr where
  | githubException
  | attributeError
deriving DecidableEq, Repr

/-- JSON documents, as produced by Python's `json.loads`.  Number lexemes are
kept verbatim (no claim depends on numeric value semantics). -/
inductive JValue where
  | null
  | bool (b : Bool)
  | num (lexeme : PyStr)
  | str (s : PyStr)
  | arr (xs : List JValue)
  | obj (kvs : List (PyStr × JValue))

/-- Skip JSON insignificant whitespace. -/
def jsonSkipWs (cs : PyStr) : PyStr :=
  cs.dropWhile (fun c => c = ' ' || c = '\t' || c = '\n' || c = '\r')

/-- One hexadecimal digit. -/
def hexDigit (c : Char) : Option Nat :=
  if '0' ≤ c ∧ c ≤ '9' then some (c.toNat - '0'.toNat)
  else if 'a' ≤ c ∧ c ≤ 'f' then some (c.toNat - 'a'.toNat + 10)
  else if 'A' ≤ c ∧ c ≤ 'F' then some (c.toNat - 'A'.toNat + 10)
  else none

/-- Parse the body of a JSON string literal (the opening quote already
consumed), handling the standard escapes. -/
def jsonString : PyStr → Option (PyStr × PyStr)
  | [] => none
  | '"' :: rest => some ([], rest)
  | '\\' :: 'u' :: h1 :: h2 :: h3 :: h4 :: rest => do
    let d1 ← hexDigit h1
    let d2 ← hexDigit h2
    let d3 ← hexDigit h3
    let d4 ← hexDigit h4
    let (s, rem) ← jsonString rest
    some (Char.ofNat (((d1 * 16 + d2) * 16 + d3) * 16 + d4) :: s, rem)
  | '\\' :: e :: rest => do
    let c ← match e with
      | '"' => some '"'
      | '\\' => some '\\'
      | '/' => some '/'
      | 'n' => some '\n'
      | 't' => some '\t'
      | 'r' => some '\r'
      | 'b' => some '\x08'
      | 'f' => some '\x0c'
      | _ => none
    let (s, rem) ← jsonString rest
    some (c :: s, rem)
  | c :: rest => do
    let (s, rem) ← jsonString rest
    some (c :: s, rem)

/-- Characters accepted inside a JSON number lexeme. -/
def jsonNumChar (c : Char) : Bool :=
  c.isDigit || c = '-' || c = '+' || c = '.' || c = 'e' || c = 'E'

mutual

/-- Fuel-driven JSON value parser (fuel is spent only when descending into a
bracketed construct, so `length + 2` fuel always suffices). -/
def jsonVal : Nat → PyStr → Option (JValue × PyStr)
  | 0, _ => none
  | fuel + 1, cs =>
    let cs := jsonSkipWs cs
    if "null".toList.isPrefixOf cs then some (.null, cs.drop 4)
    else if "true".toList.isPrefixOf cs then some (.bool true, cs.drop 4)
    else if "false".toList.isPrefixOf cs then some (.bool false, cs.drop 5)
    else
      match cs with
      | '"' :: rest => (jsonString rest).map (fun (s, rem) => (.str s, rem))
      | '[' :: rest => jsonArrItems fuel (jsonSkipWs rest) true
      | '{' :: rest => jsonObjItems fuel (jsonSkipWs rest) true
      | c :: _ =>
        if c.isDigit || c = '-' then
          let lexeme := cs.takeWhile jsonNumChar
          some (.num lexeme, cs.drop lexeme.length)
        else none
      | [] => none

/-- Items of a JSON array; `isFirst` distinguishes `[]` from a trailing item. -/
def jsonArrItems : Nat → PyStr → Bool → Option (JValue × PyStr)
  | 0, _, _ => none
  | _ + 1, ']' :: rest, true => some (.arr [], rest)
  | fuel + 1, cs, _ => do
    let (v, rem) ← jsonVal fuel cs
    match jsonSkipWs rem with
    | ']' :: rest => some (.arr [v], rest)
    | ',' :: rest => do
      let (tail, rem2) ← jsonArrItems fuel (jsonSkipWs rest) false
      match tail with
      | .arr xs => some (.arr (v :: xs), rem2)
      | _ => none
    | _ => none

/-- Members of a JSON object; `isFirst` distinguishes `{}` from a trailing
member.  (Braces are written as character literals to stand for themselves.) -/
def jsonObjItems : Nat → PyStr → Bool → Option (JValue × PyStr)
  | 0, _, _ => none
  | _ + 1, '}' :: rest, true => some (.obj [], rest)
  | fuel + 1, '"' :: cs, _ => do
    let (k, rem) ← jsonString cs
    match jsonSkipWs rem with
    | ':' :: rest => do
      let (v, rem2) ← jsonVal fuel rest
      match jsonSkipWs rem2 with
      | '}' :: rest2 => some (.obj [(k, v)], rest2)
      | ',' :: rest2 => do
        let (tail, rem3) ← jsonObjItems fuel (jsonSkipWs rest2) false
        match tail with
        | .obj kvs => some (.obj ((k, v) :: kvs), rem3)
        | _ => none
      | _ => none
    | _ => none
  | _ + 1, _, _ => none

end

/-- Python `json.loads`: parse one document and require only whitespace to
remain; any failure is a `json.JSONDecodeError`, modelled as `none`. -/
def jsonLoads (s : PyStr) : Option JValue := do
  let (v, rest) ← jsonVal (s.length + 2) s
  if (jsonSkipWs rest).isEmpty then some v else none

/-- Python `dict.get(k, default)` on a decoded JSON object (duplicate keys:
the last value wins, as in `json.loads`). -/
def pyDictGet (kvs : List (PyStr × JValue)) (k : PyStr) (dflt : JValue) : JValue :=
  match (kvs.reverse.find? (fun kv => kv.1 = k)) with
  | some kv => kv.2
  | none => dflt

/-- Python `list(d.keys())` (first-occurrence order, duplicates collapsed, as
for a dict built by `json.loads`). -/
def pyDictKeys (kvs : List (PyStr × JValue)) : List PyStr :=
  (kvs.map (fun kv => kv.1)).foldl
    (fun acc k => if acc.contains k then acc else acc ++ [k]) []

/-- Python `x.keys()` when `x` may not be a dict: any non-dict raises
`AttributeError`. -/
def keysOf : JValue → Except PyErr (List PyStr)
  | .obj kvs => .ok (pyDictKeys kvs)
  | _ => .error .attributeError

/-- Python `x.get(k, default)` when `x` may not be a dict: any non-dict
(`None`, a list, a string, a number, a bool) raises `AttributeError`. -/
def getOf (v : JValue) (k : PyStr) (dflt : JValue) : Except PyErr JValue :=
  match v with
  | .obj kvs => .ok (pyDictGet kvs k dflt)
  | _ => .error .attributeError

/-- The parse result of one manifest file, with Python truthiness. -/
inductive DepResult where
  | flat (xs : List PyStr)
  | npmGroups (dependencies devDependencies scripts : List PyStr)
  | composerGroups (requireKeys requireDevKeys : List PyStr)
  | emptyMap
deriving DecidableEq, Repr

/-- Python truthiness of a parser result: an empty list or empty dict is
falsy; the three-key and two-key dicts built by the JSON extractors are
always truthy (they have keys even when every group list is empty). -/
def DepResult.truthy : DepResult → Bool
  | .flat xs => !xs.isEmpty
  | .npmGroups _ _ _ => true
  | .composerGroups _ _ => true
  | .emptyMap => false

/-- `GitHubService._parse_package_json`: decode JSON (a `JSONDecodeError`
yields the empty dict), then build the three dependency groups.  Calling
`.get`/`.keys()` on a decoded non-dict raises `AttributeError`, which the
source does not catch. -/
def _parse_package_json (content : PyStr) : Except PyErr DepResult :=
  match jsonLoads content with
  | none => .ok .emptyMap
  | some data => do
    let depsV ← getOf data "dependencies".toList (.obj [])
    let deps ← keysOf depsV
    let devV ← getOf data "devDependencies".toList (.obj [])
    let dev ← keysOf devV
    let scriptsV ← getOf data "scripts".toList (.obj [])
    let scripts ← keysOf scriptsV
    return .npmGroups deps dev scripts

/-- `GitHubService._parse_requirements_txt`: one dependency per non-empty,
non-comment line, version specifiers and extras stripped. -/
def _parse_requirements_txt (content : PyStr) : List PyStr :=
  (pySplitLines (pyStrip content)).flatMap (fun rawLine =>
    let line := pyStrip rawLine
    if !line.isEmpty && !pyStartsWith "#".toList line then
      [pyStrip (pyBefore "[".toList
        (pyBefore "<=".toList (pyBefore ">=".toList (pyBefore "==".toList line))))]
    else [])

/-- Line scanner of `GitHubService._parse_pipfile` (the flag is `in_packages`;
returning `[]` on a `[`-line models the `break`). -/
def pipfileScan : List PyStr → Bool → List PyStr
  | [], _ => []
  | line :: rest, inPackages =>
    if pyContains "[packages]".toList line then pipfileScan rest true
    else if inPackages && pyStartsWith "[".toList line then []
    else if inPackages && pyContains "=".toList line then
      let pkg := pyStripChar '"' (pyStrip (pyBefore "=".toList line))
      (if !pkg.isEmpty then [pkg] else []) ++ pipfileScan rest inPackages
    else pipfileScan rest inPackages

/-- `GitHubService._parse_pipfile`. -/
def _parse_pipfile (content : PyStr) : List PyStr :=
  pipfileScan (pySplitLines content) false

/-- Line scanner of `GitHubService._parse_pyproject` (flag `in_deps`). -/
def pyprojectScan : List PyStr → Bool → List PyStr
  | [], _ => []
  | line :: rest, inDeps =>
    if pyContains "dependencies".toList line && pyContains "=".toList line then
      pyprojectScan rest true
    else if inDeps && pyStartsWith "]".toList (pyStrip line) then []
    else if inDeps && pyContains "\"".toList line then
      pyBefore "==".toList (pyBefore ">=".toList ((splitOnCharP '"' line).getD 1 []))
        :: pyprojectScan rest inDeps
    else pyprojectScan rest inDeps

/-- `GitHubService._parse_pyproject`. -/
def _parse_pyproject (content : PyStr) : List PyStr :=
  pyprojectScan (pySplitLines content) false

/-- Line scanner of `GitHubService._parse_cargo_toml` (flag `in_deps`). -/
def cargoScan : List PyStr → Bool → List PyStr
  | [], _ => []
  | line :: rest, inDeps =>
    if pyContains "[dependencies]".toList line then cargoScan rest true
    else if inDeps && pyStartsWith "[".toList line then []
    else if inDeps && pyContains "=".toList line then
      let pkg := pyStrip (pyBefore "=".toList line)
      (if !pkg.isEmpty then [pkg] else []) ++ cargoScan rest inDeps
    else cargoScan rest inDeps

/-- `GitHubService._parse_cargo_toml`. -/
def _parse_cargo_toml (content : PyStr) : List PyStr :=
  cargoScan (pySplitLines content) false

/-- `GitHubService._parse_go_mod`: each line is stripped first; a line is
considered when the stripped line starts with `require` or still contains a
tab, every occurrence of `require` is removed, and the first
whitespace-separated token is kept when it contains a slash. -/
def _parse_go_mod (content : PyStr) : List PyStr :=
  (pySplitLines content).flatMap (fun rawLine =>
    let line := pyStrip rawLine
    if pyStartsWith "require".toList line || line.contains '\t' then
      match pySplitWs (pyStrip (pyReplace "require".toList [] line)) with
      | tok :: _ => if tok.contains '/' then [tok] else []
      | [] => []
    else [])

/-- `GitHubService._parse_gemfile`: lines whose stripped form starts with
`gem ` contribute the first single-quoted token of the raw line. -/
def _parse_gemfile (content : PyStr) : List PyStr :=
  (pySplitLines content).flatMap (fun line =>
    if pyStartsWith "gem ".toList (pyStrip line) then
      let pieces := splitOnCharP '\'' line
      if pieces.length ≥ 2 then [pieces.getD 1 []] else []
    else [])

/-- The literal `<artifactId>` tag. -/
def pomOpenTag : PyStr := "<artifactId>".toList

/-- The literal `</artifactId>` tag. -/
def pomCloseTag : PyStr := "</artifactId>".toList

/-- `re.findall(r'<artifactId>([^<]+)</artifactId>', content)`: leftmost
non-overlapping matches; on a failed match attempt the scan advances one
character.  Fuel `content.length` suffices (every step consumes a char). -/
def pomScanFuel : Nat → PyStr → List PyStr
  | 0, _ => []
  | _ + 1, [] => []
  | fuel + 1, c :: cs =>
    if pomOpenTag.isPrefixOf (c :: cs) then
      let rest := (c :: cs).drop pomOpenTag.length
      let captured := rest.takeWhile (· ≠ '<')
      let rest2 := rest.drop captured.length
      if !captured.isEmpty && pomCloseTag.isPrefixOf rest2 then
        captured :: pomScanFuel fuel (rest2.drop pomCloseTag.length)
      else pomScanFuel fuel cs
    else pomScanFuel fuel cs

/-- `GitHubService._parse_pom_xml` (capped at 20 artifacts). -/
def _parse_pom_xml (content : PyStr) : List PyStr :=
  (pomScanFuel content.length content).take 20

/-- `GitHubService._parse_composer_json`: like the npm manifest but with the
`require` / `require-dev` groups. -/
def _parse_composer_json (content : PyStr) : Except PyErr DepResult :=
  match jsonLoads content with
  | none => .ok .emptyMap
  | some data => do
    let reqV ← getOf data "require".toList (.obj [])
    let req ← keysOf reqV
    let devV ← getOf data "require-dev".toList (.obj [])
    let dev ← keysOf devV
    return .composerGroups req dev

/-- The manifest registry of `GitHubService._get_dependencies`, in source
order.  The line-oriented extractors are total Python functions (they cannot
raise on any input string), so they are wrapped in `.ok`; only the two JSON
extractors can surface an `AttributeError`. -/
def package_files : List (PyStr × (PyStr → Except PyErr DepResult)) :=
  [("package.json".toList, _parse_package_json),
   ("requirements.txt".toList, fun c => .ok (.flat (_parse_requirements_txt c))),
   ("Pipfile".toList, fun c => .ok (.flat (_parse_pipfile c))),
   ("pyproject.toml".toList, fun c => .ok (.flat (_parse_pyproject c))),
   ("Cargo.toml".toList, fun c => .ok (.flat (_parse_cargo_toml c))),
   ("go.mod".toList, fun c => .ok (.flat (_parse_go_mod c))),
   ("Gemfile".toList, fun c => .ok (.flat (_parse_gemfile c))),
   ("pom.xml".toList, fun c => .ok (.flat (_parse_pom_xml c))),
   ("composer.json".toList, _parse_composer_json)]

/-- Worker of `GitHubService._get_dependencies`: iterate the registry; a
`GithubException` while fetching a manifest (`none`) skips that manifest; a
truthy parse result is recorded under the manifest filename; an extractor
exception propagates. -/
def getDepsGo (fetch : PyStr → Option PyStr) :
    List (PyStr × (PyStr → Except PyErr DepResult)) → List (PyStr × DepResult) →
    Except PyErr (List (PyStr × DepResult))
  | [], deps => .ok deps
  | (fname, extractor) :: rest, deps =>
    match fetch fname with
    | none => getDepsGo fetch rest deps
    | some content =>
      match extractor content with
      | .error e => .error e
      | .ok parsed =>
        getDepsGo fetch rest (if parsed.truthy then deps ++ [(fname, parsed)] else deps)

/-- `GitHubService._get_dependencies`, over the root-file fetcher. -/
def _get_dependencies (fetch : PyStr → Option PyStr) :
    Except PyErr (List (PyStr × DepResult)) :=
  getDepsGo fetch package_files []

mutual

/-- One entry of a repository directory listing, with its subtree.  `fetchOk`
models whether `repo.get_contents` on that directory succeeds (a failure is
swallowed by the source: `except: pass`).  The listing is a bespoke mutual
list so every tree function below is structurally recursive. -/
inductive Entry where
  | file (name : PyStr)
  | dir (name : PyStr) (fetchOk : Bool) (children : EntryList)

/-- A directory listing in provider order. -/
inductive EntryList where
  | nil
  | cons (e : Entry) (rest : EntryList)

end

/-- Build an `EntryList` from an ordinary list (for concrete repositories). -/
def EntryList.ofList : List Entry → EntryList
  | [] => .nil
  | e :: es => .cons e (EntryList.ofList es)

/-- The infrastructure directories excluded from recursion by
`GitHubService._get_all_files`. -/
def excluded_dirs : List PyStr :=
  ["node_modules".toList, ".git".toList, "vendor".toList, "__pycache__".toList]

mutual

/-- The contribution of one listing entry inside `_get_all_files`'s loop:
a file appends its API path (modelled component-wise); a non-excluded
directory whose listing fetch succeeds extends with the recursive call's
result (which the source itself truncates: `return files[:100]`). -/
def filesOfEntry : List PyStr → Entry → List (List PyStr)
  | path, .file name => [path ++ [name]]
  | path, .dir name fetchOk children =>
    if excluded_dirs.contains name then []
    else if fetchOk then (filesOfList (path ++ [name]) children).take 100
    else []

/-- Worker of `GitHubService._get_all_files`: walk the listing in provider
order, concatenating each entry's contribution. -/
def filesOfList : List PyStr → EntryList → List (List PyStr)
  | _, .nil => []
  | path, .cons e rest => filesOfEntry path e ++ filesOfList path rest

end

/-- `GitHubService._get_all_files` on the root listing: the result is
truncated to 100 entries (`return files[:100]`). -/
def _get_all_files (entries : EntryList) : List (List PyStr) :=
  (filesOfList [] entries).take 100

/-- One node of the structure tree built by `GitHubService._get_structure`
(`children = none` models the absent `children` key at the depth cap). -/
inductive StructItem where
  | mk (name : PyStr) (itemType : PyStr) (path : List PyStr)
       (children : Option (List StructItem))

mutual

/-- The item built for one listing entry by `GitHubService._get_structure`. -/
def structOfEntry : List PyStr → Nat → Entry → StructItem
  | path, _, .file name => .mk name "file".toList (path ++ [name]) none
  | path, depth, .dir name fetchOk children =>
    .mk name "dir".toList (path ++ [name])
      (if depth < 2 then
        some (if fetchOk then structGo (path ++ [name]) (depth + 1) children else [])
      else none)

/-- `GitHubService._get_structure` from depth `depth` (callers start at 0;
the source's `depth > max_depth` early return is unreachable because the
recursion only descends while `depth < max_depth = 2`).  A directory whose
child listing fails yields an empty child list, as the source's
`except GithubException: pass` does. -/
def structGo : List PyStr → Nat → EntryList → List StructItem
  | _, _, .nil => []
  | path, depth, .cons e rest => structOfEntry path depth e :: structGo path depth rest

end

/-- `GitHubService._get_structure` as called by `analyze_repo`. -/
def _get_structure (entries : EntryList) : List StructItem :=
  structGo [] 0 entries

/-- The name of a listing entry. -/
def Entry.name : Entry → PyStr
  | .file n => n
  | .dir n _ _ => n

/-- The fixed inventory list of `GitHubService._identify_key_files`. -/
def important_files : List PyStr :=
  ["package.json".toList, "requirements.txt".toList, "Cargo.toml".toList,
   "go.mod".toList, "Dockerfile".toList, "docker-compose.yml".toList,
   ".github/workflows".toList, "Makefile".toList, "setup.py".toList,
   "setup.cfg".toList, "next.config.js".toList, "vite.config.js".toList,
   "webpack.config.js".toList, "tsconfig.json".toList,
   "tailwind.config.js".toList, ".eslintrc".toList, "jest.config.js".toList]

/-- The `.github/workflows` appends of `_identify_key_files`: one per child
named `workflows` of a `.github` directory whose listing succeeds. -/
def workflowKeys : EntryList → List PyStr
  | .nil => []
  | .cons gc rest =>
    (if gc.name = "workflows".toList then [".github/workflows".toList] else []) ++
      workflowKeys rest

/-- The contributions of one root entry inside `_identify_key_files`'s loop. -/
def keyFilesOfEntry (e : Entry) : List PyStr :=
  (if important_files.contains e.name then [e.name] else []) ++
    (match e with
     | .dir n fetchOk children =>
       if n = ".github".toList && fetchOk then workflowKeys children else []
     | .file _ => [])

/-- Worker of `_identify_key_files` over the root listing. -/
def keyFilesGo : EntryList → List PyStr
  | .nil => []
  | .cons e rest => keyFilesOfEntry e ++ keyFilesGo rest

/-- `GitHubService._identify_key_files`: scan the root listing (a failed root
fetch yields `[]`); a `.github` directory whose listing succeeds contributes
`.github/workflows` once per `workflows` child. -/
def _identify_key_files (rootOk : Bool) (entries : EntryList) : List PyStr :=
  if !rootOk then [] else keyFilesGo entries

/-- Repository metadata, as returned by the accessor's `get_repo` (the
source's `repo.license.name if repo.license else None` is modelled by
`license` already being the optional name).  `pushedDaysAgo` is the
precomputed `(datetime.now(timezone.utc) - repo.pushed_at).days`, `none`
when `pushed_at` is `None`. -/
structure Meta where
  name : PyStr
  description : Option PyStr
  language : Option PyStr
  license : Option PyStr
  pushedDaysAgo : Option Int

/-- The accessor state of one repository, as seen by `GitHubService`.
`meta = none` models `get_repo` raising (handle resolution fails);
`topicsR = none` models `repo.get_topics()` raising; `rootOk = false`
models `repo.get_contents("")` raising; `fileByPath p = none` models
`repo.get_contents(p)` (or the base64/utf-8 decode) raising for that path;
`readmeR = none` models `repo.get_readme()` raising. -/
structure Repo where
  meta : Option Meta
  topicsR : Option (List PyStr)
  languagesR : Option (List (PyStr × Nat))
  rootOk : Bool
  tree : EntryList
  fileByPath : List PyStr → Option PyStr
  readmeR : Option PyStr

/-- `GitHubService._get_languages`: byte counts to percentages
(`bytes / total * 100`); an accessor failure or zero total yields the empty
mapping.  Python's `round(x, 1)` on the float percentage is not modelled:
the exact rational is kept (no claim depends on the rounded values). -/
def _get_languages (r : Repo) : List (PyStr × Rat) :=
  match r.languagesR with
  | none => []
  | some languages =>
    let total := (languages.map (fun lb => lb.2)).sum
    if total = 0 then []
    else languages.map (fun lb => (lb.1, (lb.2 : Rat) * 100 / (total : Rat)))

/-- One security finding (`ftype` is the source dict's `'type'` key). -/
structure Finding where
  ftype : PyStr
  file : List PyStr
  message : PyStr
deriving DecidableEq, Repr

/-- The result dict of `GitHubService.scan_security`. -/
structure SecurityReport where
  issues : List Finding
  warnings : List Finding
  score : Int
  has_critical : Bool
deriving DecidableEq, Repr

/-- The denylist of `scan_security` (`dangerous_files`). -/
def dangerous_files : List PyStr :=
  [".env".toList, ".env.local".toList, ".env.production".toList,
   ".env.development".toList, "credentials.json".toList,
   "service-account.json".toList, "secrets.json".toList, "config.json".toList,
   ".npmrc".toList, ".pypirc".toList, "id_rsa".toList, "id_ed25519".toList,
   ".htpasswd".toList, "wp-config.php".toList, "database.yml".toList]

/-- The secret-indicator patterns of `scan_security` (`secret_patterns`). -/
def secret_patterns : List (PyStr × PyStr) :=
  [("API_KEY".toList, "API Key exposed".toList),
   ("SECRET_KEY".toList, "Secret Key exposed".toList),
   ("PRIVATE_KEY".toList, "Private Key exposed".toList),
   ("ghp_".toList, "GitHub Token exposed".toList),
   ("sk-".toList, "OpenAI/Stripe Key exposed".toList),
   ("AIzaSy".toList, "Google API Key exposed".toList),
   ("AKIA".toList, "AWS Access Key exposed".toList),
   ("password".toList, "Password found".toList),
   ("Bearer ".toList, "Bearer token exposed".toList)]

/-- The placeholder list of `scan_security`
(`['', 'your_key_here', 'xxx', 'YOUR_API_KEY']`). -/
def placeholder_values : List PyStr :=
  [[], "your_key_here".toList, "xxx".toList, "YOUR_API_KEY".toList]

/-- `line.split('=', 1)[1].strip().strip('"').strip("'")`. -/
def extractValue (line : PyStr) : PyStr :=
  pyStripChar '\'' (pyStripChar '"' (pyStrip (pyAfterEq line)))

/-- `pattern.lower() in line.lower() and '=' in line`. -/
def lineMatches (pat line : PyStr) : Bool :=
  pyContains (pyLower pat) (pyLower line) && pyContains "=".toList line

/-- A line yields a finding for `pat`: it matches and its value is truthy and
not a placeholder literal. -/
def lineSurvives (pat line : PyStr) : Bool :=
  lineMatches pat line &&
    (let value := extractValue line
     !value.isEmpty && !(placeholder_values.contains value))

/-- One pattern fires on a decoded candidate file when the pattern occurs in
the content and some line survives (the source's inner `for`/`break` loop
appends one finding at the first surviving line and none otherwise). -/
def patternFires (decoded pat : PyStr) : Bool :=
  pyContains (pyLower pat) (pyLower decoded) &&
    (pySplitLines decoded).any (fun line => lineSurvives pat line)

/-- The embedded-secret findings of one decoded candidate file: one CRITICAL
finding per pattern that fires, in pattern order. -/
def scanFileContent (path : List PyStr) (decoded : PyStr) : List Finding :=
  (secret_patterns.filter (fun pm => patternFires decoded pm.1)).map
    (fun pm => ⟨"CRITICAL".toList, path, pm.2⟩)

/-- The embedded-secret candidate test:
`filename.endswith('.env') or 'config' in filename.lower()`. -/
def isCandidateName (filename : PyStr) : Bool :=
  pyEndsWith ".env".toList filename || pyContains "config".toList (pyLower filename)

/-- The findings contributed by one file path in `scan_security`'s main loop:
the dangerous-filename check, then the embedded-secret check (whose content
fetch failure is swallowed: `except: pass`). -/
def fileFindings (r : Repo) (path : List PyStr) : List Finding :=
  let filename := path.getLastD []
  (if dangerous_files.contains filename then
    [⟨"CRITICAL".toList, path,
      "Sensitive file \"".toList ++ filename ++ "\" is committed to repo!".toList⟩]
  else []) ++
  (if isCandidateName filename then
    match r.fileByPath path with
    | none => []
    | some decoded => scanFileContent path decoded
  else [])

/-- The `.gitignore` entries expected by `scan_security` (`should_ignore`). -/
def should_ignore : List PyStr :=
  [".env".toList, "node_modules".toList, "__pycache__".toList,
   ".venv".toList, "venv".toList, "*.pyc".toList]

/-- The `.gitignore` hygiene warnings of `scan_security`. -/
def gitignoreWarnings (r : Repo) : List Finding :=
  match r.fileByPath [".gitignore".toList] with
  | none => [⟨"WARNING".toList, [".gitignore".toList],
      "No .gitignore file found!".toList⟩]
  | some content =>
    let lc := pyLower content
    let missing := should_ignore.filter (fun item => !pyContains item lc)
    if missing.isEmpty then []
    else [⟨"WARNING".toList, [".gitignore".toList],
      "Missing entries: ".toList ++ pyJoin ", ".toList missing⟩]

/-- The score expression of `scan_security`:
`max(0, 100 - len(issues) * 25 - len(warnings) * 10)`. -/
def securityScoreFormula (nIssues nWarnings : Nat) : Int :=
  max 0 (100 - 25 * (nIssues : Int) - 10 * (nWarnings : Int))

/-- `GitHubService.scan_security` on a resolved repository: when the root
listing fails, the whole scan body is skipped (`except GithubException:
pass`) and the report is built from empty lists; otherwise every listed file
contributes its findings in order and the `.gitignore` check contributes the
warnings. -/
def scan_security (r : Repo) : SecurityReport :=
  let pair :=
    if r.rootOk then
      ((_get_all_files r.tree).flatMap (fun path => fileFindings r path),
       gitignoreWarnings r)
    else ([], [])
  { issues := pair.1, warnings := pair.2,
    score := securityScoreFormula pair.1.length pair.2.length,
    has_critical := decide (0 < pair.1.length) }

/-- One rubric entry of `GitHubService.get_repo_health`. -/
structure HealthCheck where
  name : PyStr
  passed : Bool
  weight : Nat
deriving DecidableEq, Repr

/-- The result dict of `GitHubService.get_repo_health`. -/
structure HealthReport where
  score : Nat
  grade : PyStr
  checks : List HealthCheck
  security : SecurityReport
deriving DecidableEq, Repr

/-- `GitHubService.get_repo_health`: `get_repo` failure and the unguarded
`repo.get_topics()` failure surface as exceptions; every other input is
consumed totally.  The score is accumulated incrementally exactly as in the
source; when `repo.pushed_at` is `None` the `Active` check is not appended
at all. -/
def get_repo_health (r : Repo) : Except PyErr HealthReport :=
  match r.meta with
  | none => .error .githubException
  | some m =>
    match r.topicsR with
    | none => .error .githubException
    | some topics =>
      let has_readme := r.readmeR.isSome
      let has_license := m.license.isSome
      let has_gitignore := (r.fileByPath [".gitignore".toList]).isSome
      let has_desc := !(m.description.getD []).isEmpty
      let has_topics := decide (0 < topics.length)
      let security := scan_security r
      let is_secure := !security.has_critical
      let activeChecks : List HealthCheck :=
        match m.pushedDaysAgo with
        | some days => [⟨"Active".toList, decide (days < 180), 15⟩]
        | none => []
      let checks : List HealthCheck :=
        [⟨"README".toList, has_readme, 20⟩,
         ⟨"LICENSE".toList, has_license, 15⟩,
         ⟨".gitignore".toList, has_gitignore, 15⟩,
         ⟨"Description".toList, has_desc, 10⟩,
         ⟨"Topics".toList, has_topics, 10⟩] ++
        activeChecks ++
        [⟨"No Secrets Exposed".toList, is_secure, 15⟩]
      let score1 := if has_readme then 0 + 20 else 0
      let score2 := if has_license then score1 + 15 else score1
      let score3 := if has_gitignore then score2 + 15 else score2
      let score4 := if has_desc then score3 + 10 else score3
      let score5 := if has_topics then score4 + 10 else score4
      let score6 :=
        match m.pushedDaysAgo with
        | some days => if days < 180 then score5 + 15 else score5
        | none => score5
      let score7 := if is_secure then score6 + 15 else score6
      let grade :=
        if score7 ≥ 90 then "A".toList
        else if score7 ≥ 75 then "B".toList
        else if score7 ≥ 60 then "C".toList
        else if score7 ≥ 40 then "D".toList
        else "F".toList
      .ok ⟨score7, grade, checks, security⟩

/-- The analysis dict built by `GitHubService.analyze_repo`
(`structureTree` is the `'structure'` key; `structure` is a Lean keyword). -/
structure Analysis where
  name : PyStr
  description : PyStr
  language : Option PyStr
  languages : List (PyStr × Rat)
  topics : List PyStr
  license : Option PyStr
  structureTree : List StructItem
  dependencies : List (PyStr × DepResult)
  has_readme : Bool
  existing_readme : Option PyStr
  key_files : List PyStr

/-- `GitHubService.analyze_repo`: a `get_repo` failure is fatal; the dict
literal then evaluates its values in source order, so an unguarded
`repo.get_topics()` failure raises next, and after it an extractor
exception escaping `_get_dependencies` raises; every remaining helper
swallows its own accessor failures. -/
def analyze_repo (r : Repo) : Except PyErr Analysis :=
  match r.meta with
  | none => .error .githubException
  | some m =>
    match r.topicsR with
    | none => .error .githubException
    | some topics =>
      match _get_dependencies (fun fname => r.fileByPath [fname]) with
      | .error e => .error e
      | .ok deps =>
        .ok { name := m.name,
              description := m.description.getD [],
              language := m.language,
              languages := _get_languages r,
              topics := topics,
              license := m.license,
              structureTree := if r.rootOk then _get_structure r.tree else [],
              dependencies := deps,
              has_readme := r.readmeR.isSome,
              existing_readme := r.readmeR,
              key_files := _identify_key_files r.rootOk r.tree }

/-- The store of `Cache` (`api/services/cache.py`): key to
`(value, expiry)`.  A Python value that may be `None` is an `Option β`
(`none` is Python `None`); time is an explicit `Int` timestamp. -/
def CacheStore (β : Type) : Type := List (PyStr × Option β × Int)

/-- Dict lookup (keys in a Python dict are unique; the operations below
keep them so). -/
def cacheLookup {β : Type} (c : CacheStore β) (key : PyStr) : Option (Option β × Int) :=
  (c.find? (fun e => e.1 = key)).map (fun e => e.2)

/-- `Cache.get` at time `now`: a present, unexpired entry returns its stored
value; an expired entry is deleted and `None` is returned; a missing key
returns `None`.  A stored `None` therefore returns `None` exactly like a
missing key. -/
def Cache.get {β : Type} (c : CacheStore β) (key : PyStr) (now : Int) :
    Option β × CacheStore β :=
  match cacheLookup c key with
  | none => (none, c)
  | some (value, expiry) =>
    if now < expiry then (value, c)
    else (none, c.filter (fun e => ¬(e.1 = key)))

/-- `Cache.set`: store `value` under `key` with expiry `now + ttl`. -/
def Cache.set {β : Type} (c : CacheStore β) (key : PyStr) (value : Option β)
    (ttl now : Int) : CacheStore β :=
  (key, value, now + ttl) :: c.filter (fun e => ¬(e.1 = key))

/-- `Cache.delete`. -/
def Cache.delete {β : Type} (c : CacheStore β) (key : PyStr) : CacheStore β :=
  c.filter (fun e => ¬(e.1 = key))

/-- `Cache.clear_pattern`: delete every key containing the substring. -/
def Cache.clear_pattern {β : Type} (c : CacheStore β) (pat : PyStr) : CacheStore β :=
  c.filter (fun e => ¬(pyContains pat e.1 = true))

/-- The outcome of one call through the `cached` decorator's wrapper. -/
structure CachedCall (β : Type) where
  result : Option β
  store : CacheStore β
  called : Bool

/-- One invocation of the wrapper built by `cached(ttl)` for a function
whose call would return `fres` (a Python value, possibly `None`), with the
computed cache key `key`: a non-`None` cached value is returned without
calling; otherwise the function is called and its result stored. -/
def cachedWrap {β : Type} (fres : Option β) (ttl : Int) (key : PyStr)
    (c : CacheStore β) (now : Int) : CachedCall β :=
  let got := Cache.get c key now
  match got.1 with
  | some v => ⟨some v, got.2, false⟩
  | none => ⟨fres, Cache.set got.2 key fres ttl now, true⟩

/-- A repository whose only file is `prod.env` (an embedded-secret candidate
that is not on the dangerous-filename denylist) containing the single line
`API_KEY=sk-abc123`. -/
def repoSecretLeak : Repo :=
  { meta := none, topicsR := none, languagesR := none, rootOk := true,
    tree := EntryList.ofList [Entry.file "prod.env".toList],
    fileByPath := fun p =>
      if p = ["prod.env".toList] then some "API_KEY=sk-abc123".toList else none,
    readmeR := none }

/-- A repository whose metadata fetch succeeds but whose `pushed_at` is
`None` (a repository that was never pushed). -/
def repoNoPush : Repo :=
  { meta := some ⟨"r".toList, none, none, none, none⟩, topicsR := some [],
    languagesR := none, rootOk := false, tree := .nil,
    fileByPath := fun _ => none, readmeR := none }

/-- A repository whose metadata fetch succeeds but whose
`repo.get_topics()` call raises. -/
def repoTopicsDown : Repo :=
  { meta := some ⟨"r".toList, none, none, none, none⟩, topicsR := none,
    languagesR := none, rootOk := false, tree := .nil,
    fileByPath := fun _ => none, readmeR := none }

/-- A repository whose metadata and topics fetches succeed while every other
accessor call fails. -/
def repoDegraded : Repo :=
  { meta := some ⟨"r".toList, some "d".toList, none, none, some 10⟩,
    topicsR := some ["cli".toList],
    languagesR := none, rootOk := false, tree := .nil,
    fileByPath := fun _ => none, readmeR := none }

/-- C5: for every scan, the report's score is
`max(0, 100 - 25·criticalCount - 10·warningCount)` computed from the
report's own `issues` and `warnings`; the formula is clamped at zero (never
negative) and is monotonically non-increasing as either count grows. -/
theorem scan_security_score_spec :
    (∀ r : Repo,
      (scan_security r).score =
        max 0 (100 - 25 * ((scan_security r).issues.length : Int)
                 - 10 * ((scan_security r).warnings.length : Int)) ∧
      0 ≤ (scan_security r).score) ∧
    (∀ n m n' m' : Nat, n ≤ n' → m ≤ m' →
      securityScoreFormula n' m' ≤ securityScoreFormula n m) := by
  constructor
  · intro r
    exact ⟨rfl, le_max_left 0 _⟩
  · intro n m n' m' hn hm
    unfold securityScoreFormula
    apply max_le_max (le_refl 0)
    have hn' : (n : Int) ≤ (n' : Int) := Int.ofNat_le.mpr hn
    have hm' : (m : Int) ≤ (m' : Int) := Int.ofNat_le.mpr hm
    omega

/-- Witness for `scan_security_score_spec` at concrete counts. -/
theorem scan_security_score_spec_witness :
    (1 : Nat) ≤ 2 ∧ (0 : Nat) ≤ 3 ∧
    securityScoreFormula 2 3 ≤ securityScoreFormula 1 0 :=
  ⟨by decide, by decide, scan_security_score_spec.2 1 0 2 3 (by decide) (by decide)⟩

/-- C3: the JSON manifest extractors do raise on some inputs, contradicting
the never-raise contract: the four-character content `null` decodes
successfully (so the caught `json.JSONDecodeError` is not raised), and the
subsequent `data.get(...)` on the decoded `None` raises an uncaught
`AttributeError` in both `_parse_package_json` and `_parse_composer_json`. -/
theorem parse_package_json_null_raises :
    jsonLoads "null".toList = some JValue.null ∧
    _parse_package_json "null".toList = .error .attributeError ∧
    _parse_composer_json "null".toList = .error .attributeError :=
  ⟨rfl, rfl, rfl⟩

/-- C8 counterexample: a tab-prefixed `go.mod` dependency line whose first
token contains a slash contributes nothing, because the source strips the
line before testing for a tab. -/
theorem parse_go_mod_tab_counterexample :
    ¬(_parse_go_mod "\tgithub.com/foo/bar v1.0.0".toList
        = ["github.com/foo/bar".toList]) := by decide

/-- Per-line behaviour of `_parse_go_mod`, phrased from its observable
rule: strip the line; consider it when it starts with `require` or still
contains an (interior) tab; remove every occurrence of `require`; keep the
first whitespace token when it contains a slash. -/
def goModLineRule (rawLine : PyStr) : Option PyStr :=
  let line := pyStrip rawLine
  if pyStartsWith "require".toList line || line.contains '\t' then
    match pySplitWs (pyStrip (pyReplace "require".toList [] line)) with
    | tok :: _ => if tok.contains '/' then some tok else none
    | [] => none
  else none

/-- C8 (amended): `_parse_go_mod` keeps exactly the per-line results of
`goModLineRule`; a line starting with `require` contributes its module path,
a line whose tab survives stripping (an interior tab) contributes its first
token, and a line whose only tab is leading indentation contributes
nothing. -/
theorem parse_go_mod_line_rule :
    (∀ content : PyStr,
      _parse_go_mod content = (pySplitLines content).filterMap goModLineRule) ∧
    _parse_go_mod "require github.com/foo/bar v1.0.0".toList
      = ["github.com/foo/bar".toList] ∧
    _parse_go_mod "\tgithub.com/foo/bar\tv1.0.0".toList
      = ["github.com/foo/bar".toList] ∧
    _parse_go_mod "\tgithub.com/foo/bar v1.0.0".toList = [] := by
  refine ⟨?_, by decide, by decide, by decide⟩
  intro content
  have hline : ∀ l : PyStr,
      (let line := pyStrip l
       if pyStartsWith "require".toList line || line.contains '\t' then
         match pySplitWs (pyStrip (pyReplace "require".toList [] line)) with
         | tok :: _ => if tok.contains '/' then [tok] else []
         | [] => []
       else []) = (goModLineRule l).toList := by
    intro l
    unfold goModLineRule
    dsimp only []
    split
    · split
      · split <;> rfl
      · rfl
    · rfl
  unfold _parse_go_mod
  induction pySplitLines content with
  | nil => rfl
  | cons l ls ih =>
    rw [List.flatMap_cons, List.filterMap_cons, ih, hline l]
    cases goModLineRule l <;> simp

/-- C9: a stored `None` is indistinguishable from absence: `get` after
`set(key, None, ttl)` returns `None` at every query time, exactly as for a
key never stored; consequently the `cached` wrapper calls the underlying
function again on every call whose result is `None` — including the call
made immediately after a previous call stored that `None`. -/
theorem cache_none_never_cached :
    (∀ (β : Type) (c : CacheStore β) (key : PyStr) (ttl now now' : Int),
      (Cache.get (Cache.set c key none ttl now) key now').1 = none) ∧
    (∀ (β : Type) (c : CacheStore β) (key : PyStr) (now : Int),
      cacheLookup c key = none → (Cache.get c key now).1 = none) ∧
    (∀ (β : Type) (ttl : Int) (key : PyStr) (c : CacheStore β) (now now' : Int),
      (Cache.get c key now).1 = none →
        (cachedWrap (none : Option β) ttl key c now).called = true ∧
        (cachedWrap (none : Option β) ttl key
            (cachedWrap (none : Option β) ttl key c now).store now').called = true) := by
  have h1 : ∀ (β : Type) (c : CacheStore β) (key : PyStr) (ttl now now' : Int),
      (Cache.get (Cache.set c key none ttl now) key now').1 = none := by
    intro β c key ttl now now'
    unfold Cache.get Cache.set cacheLookup
    rw [List.find?_cons_of_pos _ (by simp), Option.map_some']
    dsimp only
    split <;> rfl
  refine ⟨h1, ?_, ?_⟩
  · intro β c key now hlk
    unfold Cache.get
    rw [hlk]
  · intro β ttl key c now now' hget
    have hcall : cachedWrap (none : Option β) ttl key c now =
        ⟨none, Cache.set (Cache.get c key now).2 key none ttl now, true⟩ := by
      unfold cachedWrap
      dsimp only
      rw [hget]
    constructor
    · rw [hcall]
    · rw [hcall]
      have hget2 : (Cache.get (Cache.set (Cache.get c key now).2 key none ttl now) key now').1
          = none := h1 β _ key ttl now now'
      unfold cachedWrap
      dsimp only
      rw [hget2]

/-- Witness for `cache_none_never_cached`: the empty cache over `Nat`. -/
theorem cache_none_never_cached_witness :
    (Cache.get ([] : CacheStore Nat) "k".toList 0).1 = none ∧
    (cachedWrap (none : Option Nat) 300 "k".toList ([] : CacheStore Nat) 0).called = true ∧
    (cachedWrap (none : Option Nat) 300 "k".toList
        (cachedWrap (none : Option Nat) 300 "k".toList ([] : CacheStore Nat) 0).store 1).called
      = true := by
  refine ⟨by decide, ?_, ?_⟩
  · exact (cache_none_never_cached.2.2 Nat 300 "k".toList [] 0 1 (by decide)).1
  · exact (cache_none_never_cached.2.2 Nat 300 "k".toList [] 0 1 (by decide)).2

/-- Membership in the accumulator of `getDepsGo`: every recorded pair was
already in the accumulator or comes from a registry entry whose manifest
fetch succeeded and whose extractor returned that pair's truthy result. -/
theorem getDepsGo_mem (fetch : PyStr → Option PyStr)
    (pfs : List (PyStr × (PyStr → Except PyErr DepResult))) :
    ∀ (acc deps : List (PyStr × DepResult)),
      getDepsGo fetch pfs acc = .ok deps →
      ∀ x ∈ deps, x ∈ acc ∨
        ∃ ex, (x.1, ex) ∈ pfs ∧
          ∃ content, fetch x.1 = some content ∧ ex content = .ok x.2 ∧
            x.2.truthy = true := by
  induction pfs with
  | nil =>
    intro acc deps h x hx
    unfold getDepsGo at h
    cases h
    exact Or.inl hx
  | cons p rest ih =>
    obtain ⟨fname, extractor⟩ := p
    intro acc deps h x hx
    unfold getDepsGo at h
    cases hf : fetch fname with
    | none =>
      rw [hf] at h
      rcases ih acc deps h x hx with hacc | ⟨ex, hex, hc⟩
      · exact Or.inl hacc
      · exact Or.inr ⟨ex, List.mem_cons_of_mem _ hex, hc⟩
    | some content =>
      rw [hf] at h
      dsimp only at h
      cases hp : extractor content with
      | error e => rw [hp] at h; cases h
      | ok parsed =>
        rw [hp] at h
        dsimp only at h
        rcases ih _ deps h x hx with hacc | ⟨ex, hex, hc⟩
        · by_cases ht : parsed.truthy
          · rw [if_pos ht] at hacc
            rcases List.mem_append.mp hacc with hacc' | hx'
            · exact Or.inl hacc'
            · have hxe : x = (fname, parsed) := by simpa using hx'
              subst hxe
              exact Or.inr ⟨extractor, List.mem_cons_self _ _,
                content, hf, hp, ht⟩
          · rw [if_neg ht] at hacc
            exact Or.inl hacc
        · exact Or.inr ⟨ex, List.mem_cons_of_mem _ hex, hc⟩

/-- C10: a manifest filename is a key of the dependency mapping only if its
manifest was fetched and its registered extractor returned a truthy
(non-empty) result; absent, unfetchable, or falsy-parsing manifests are
omitted. -/
theorem dependencies_key_iff_truthy :
    ∀ (fetch : PyStr → Option PyStr) (deps : List (PyStr × DepResult)),
      _get_dependencies fetch = .ok deps →
      ∀ fname res, (fname, res) ∈ deps →
        ∃ ex, (fname, ex) ∈ package_files ∧
          ∃ content, fetch fname = some content ∧ ex content = .ok res ∧
            res.truthy = true := by
  intro fetch deps h fname res hmem
  rcases getDepsGo_mem fetch package_files [] deps h (fname, res) hmem with hacc | hfound
  · cases hacc
  · exact hfound

/-- The root-file fetcher of a repository holding only a one-line
`requirements.txt`. -/
def reqOnlyFetch : PyStr → Option PyStr := fun f =>
  if f = "requirements.txt".toList then some "flask==2.0.1".toList else none

/-- Witness for `dependencies_key_iff_truthy` on a concrete repository. -/
theorem dependencies_key_iff_truthy_witness :
    _get_dependencies reqOnlyFetch
      = .ok [("requirements.txt".toList, .flat ["flask".toList])] ∧
    ("requirements.txt".toList, DepResult.flat ["flask".toList])
      ∈ [("requirements.txt".toList, DepResult.flat ["flask".toList])] ∧
    ∃ ex, ("requirements.txt".toList, ex) ∈ package_files ∧
      ∃ content, reqOnlyFetch "requirements.txt".toList = some content ∧
        ex content = .ok (.flat ["flask".toList]) ∧
        (DepResult.flat ["flask".toList]).truthy = true := by
  have hdeps : _get_dependencies reqOnlyFetch
      = .ok [("requirements.txt".toList, DepResult.flat ["flask".toList])] := by decide
  refine ⟨hdeps, List.mem_singleton.mpr rfl, ?_⟩
  exact dependencies_key_iff_truthy reqOnlyFetch
    [("requirements.txt".toList, DepResult.flat ["flask".toList])] hdeps
    "requirements.txt".toList (DepResult.flat ["flask".toList])
    (List.mem_singleton.mpr rfl)

mutual

/-- Every path contributed by one listing entry extends the current path by
a nonempty suffix whose directory components avoid the excluded names. -/
theorem filesOfEntry_shape : ∀ (e : Entry) (path p : List PyStr),
    p ∈ filesOfEntry path e →
    ∃ q, p = path ++ q ∧ q ≠ [] ∧ ∀ c ∈ q.dropLast, c ∉ excluded_dirs
  | .file name, path, p, hp => by
    unfold filesOfEntry at hp
    rw [List.mem_singleton] at hp
    exact ⟨[name], hp, by simp, by simp⟩
  | .dir name fetchOk children, path, p, hp => by
    unfold filesOfEntry at hp
    by_cases hex : excluded_dirs.contains name = true
    · rw [if_pos hex] at hp
      simp at hp
    · rw [if_neg hex] at hp
      cases fetchOk with
      | false =>
        rw [if_neg (by simp)] at hp
        simp at hp
      | true =>
        rw [if_pos rfl] at hp
        have hp' := List.mem_of_mem_take hp
        obtain ⟨q, hq, hqne, hqdrop⟩ := filesOfList_shape children (path ++ [name]) p hp'
        refine ⟨name :: q, by simp [hq], by simp, ?_⟩
        intro c hc
        cases q with
        | nil => exact absurd rfl hqne
        | cons a t =>
          rw [List.dropLast_cons₂] at hc
          rcases List.mem_cons.mp hc with hceq | hct
          · subst hceq
            simpa using hex
          · exact hqdrop c hct

/-- Every path produced by the walker from the current path extends it by a
nonempty suffix whose directory components avoid the excluded names. -/
theorem filesOfList_shape : ∀ (ns : EntryList) (path p : List PyStr),
    p ∈ filesOfList path ns →
    ∃ q, p = path ++ q ∧ q ≠ [] ∧ ∀ c ∈ q.dropLast, c ∉ excluded_dirs
  | .nil, path, p, hp => by
    unfold filesOfList at hp
    simp at hp
  | .cons e rest, path, p, hp => by
    unfold filesOfList at hp
    rcases List.mem_append.mp hp with h1 | h2
    · exact filesOfEntry_shape e path p h1
    · exact filesOfList_shape rest path p h2

end

/-- C7: `_get_all_files` returns at most 100 paths, and no returned path
lies under a directory named `node_modules`, `.git`, `vendor` or
`__pycache__` (no such name occurs among a returned path's directory
components). -/
theorem get_all_files_bounded :
    ∀ t : EntryList,
      (_get_all_files t).length ≤ 100 ∧
      ∀ p ∈ _get_all_files t, ∀ c ∈ p.dropLast, c ∉ excluded_dirs := by
  intro t
  refine ⟨List.length_take_le 100 (filesOfList [] t), ?_⟩
  intro p hp c hc
  have hp' := List.mem_of_mem_take hp
  obtain ⟨q, hq, _, hqdrop⟩ := filesOfList_shape t [] p hp'
  rw [List.nil_append] at hq
  subst hq
  exact hqdrop c hc

/-- A repository listing with an excluded `node_modules` directory beside an
ordinary `src` directory. -/
def demoTree : EntryList :=
  EntryList.ofList
    [Entry.file "README.md".toList,
     Entry.dir "node_modules".toList true (EntryList.ofList [Entry.file "x.js".toList]),
     Entry.dir "src".toList true (EntryList.ofList [Entry.file "main.py".toList])]

/-- Witness for `get_all_files_bounded` on `demoTree`. -/
theorem get_all_files_bounded_witness :
    ["src".toList, "main.py".toList] ∈ _get_all_files demoTree ∧
    "src".toList ∈ (["src".toList, "main.py".toList]).dropLast ∧
    (_get_all_files demoTree).length ≤ 100 ∧
    "src".toList ∉ excluded_dirs := by
  refine ⟨by decide, by decide, (get_all_files_bounded demoTree).1, ?_⟩
  exact (get_all_files_bounded demoTree).2 ["src".toList, "main.py".toList]
    (by decide) "src".toList (by decide)

/-- C6: for any matching `key = value` line (pattern occurs case-insensitively
and the line contains `=`), the line is suppressed exactly when the trimmed,
quote-stripped value is empty or equals one of the placeholder literals
(case-sensitive, exact match); and a file containing `API_KEY=YOUR_API_KEY`
yields no embedded-secret finding. -/
theorem secret_placeholder_policy :
    (∀ pat line : PyStr, lineMatches pat line = true →
      (lineSurvives pat line = false ↔
        (extractValue line = [] ∨
          extractValue line ∈
            ["your_key_here".toList, "xxx".toList, "YOUR_API_KEY".toList]))) ∧
    ∀ path : List PyStr, scanFileContent path "API_KEY=YOUR_API_KEY".toList = [] := by
  constructor
  · intro pat line h
    unfold lineSurvives
    rw [h]
    simp only [Bool.true_and, Bool.and_eq_false_iff, Bool.not_eq_true',
      Bool.not_eq_false', List.isEmpty_iff]
    simp [placeholder_values]
  · intro path
    have hfilter : secret_patterns.filter
        (fun pm => patternFires "API_KEY=YOUR_API_KEY".toList pm.1) = [] := by decide
    unfold scanFileContent
    rw [hfilter]
    rfl

/-- Witness for `secret_placeholder_policy` at a concrete pattern and line. -/
theorem secret_placeholder_policy_witness :
    lineMatches "API_KEY".toList "API_KEY=xxx".toList = true ∧
    (lineSurvives "API_KEY".toList "API_KEY=xxx".toList = false ↔
      (extractValue "API_KEY=xxx".toList = [] ∨
        extractValue "API_KEY=xxx".toList ∈
          ["your_key_here".toList, "xxx".toList, "YOUR_API_KEY".toList])) :=
  ⟨by decide,
   secret_placeholder_policy.1 "API_KEY".toList "API_KEY=xxx".toList (by decide)⟩

/-- C1 counterexample: the candidate file `prod.env` containing exactly
`API_KEY=sk-abc123` receives two CRITICAL embedded-secret findings (the
`API_KEY` and `sk-` patterns both fire), not one. -/
theorem scan_security_per_file_counterexample :
    (scan_security repoSecretLeak).issues =
      [⟨"CRITICAL".toList, ["prod.env".toList], "API Key exposed".toList⟩,
       ⟨"CRITICAL".toList, ["prod.env".toList], "OpenAI/Stripe Key exposed".toList⟩] ∧
    ¬((scan_security repoSecretLeak).issues.length = 1) :=
  ⟨by decide, by decide⟩

/-- C1 (amended): a candidate file (not on the dangerous-filename list) whose
content is exactly `API_KEY=sk-abc123` receives one CRITICAL finding per
firing pattern — here exactly two, for `API_KEY` and for `sk-`, in pattern
order. -/
theorem scan_secret_one_finding_per_pattern :
    ∀ (r : Repo) (path : List PyStr) (name : PyStr),
      path.getLastD [] = name →
      dangerous_files.contains name = false →
      isCandidateName name = true →
      r.fileByPath path = some "API_KEY=sk-abc123".toList →
      fileFindings r path =
        [⟨"CRITICAL".toList, path, "API Key exposed".toList⟩,
         ⟨"CRITICAL".toList, path, "OpenAI/Stripe Key exposed".toList⟩] := by
  intro r path name hlast hdang hcand hcontent
  unfold fileFindings
  rw [hlast]
  dsimp only
  rw [hdang, hcand, hcontent]
  have hfilter : secret_patterns.filter
      (fun pm => patternFires "API_KEY=sk-abc123".toList pm.1)
      = [("API_KEY".toList, "API Key exposed".toList),
         ("sk-".toList, "OpenAI/Stripe Key exposed".toList)] := by decide
  rw [if_neg (by simp), if_pos rfl]
  dsimp only
  unfold scanFileContent
  rw [hfilter]
  rfl

/-- Witness for `scan_secret_one_finding_per_pattern` on `repoSecretLeak`. -/
theorem scan_secret_one_finding_per_pattern_witness :
    (["prod.env".toList].getLastD [] = "prod.env".toList) ∧
    dangerous_files.contains "prod.env".toList = false ∧
    isCandidateName "prod.env".toList = true ∧
    repoSecretLeak.fileByPath ["prod.env".toList] = some "API_KEY=sk-abc123".toList ∧
    fileFindings repoSecretLeak ["prod.env".toList] =
      [⟨"CRITICAL".toList, ["prod.env".toList], "API Key exposed".toList⟩,
       ⟨"CRITICAL".toList, ["prod.env".toList], "OpenAI/Stripe Key exposed".toList⟩] :=
  ⟨by decide, by decide, by decide, by decide,
   scan_secret_one_finding_per_pattern repoSecretLeak ["prod.env".toList]
     "prod.env".toList (by decide) (by decide) (by decide) (by decide)⟩

/-- C4 counterexample: a repository whose metadata fetch succeeds but whose
topics fetch raises makes `analyze_repo` surface the error — handle
resolution is not the only fatal failure. -/
theorem analyze_repo_topics_counterexample :
    repoTopicsDown.meta.isSome = true ∧
    analyze_repo repoTopicsDown = .error .githubException :=
  ⟨rfl, rfl⟩

/-- C4 (amended): once metadata and topics are fetched and the dependency
extraction returns (no extractor exception), `analyze_repo` returns a
best-effort analysis whatever the other accessor calls do — languages,
directory listings, per-file content and README failures are all
swallowed. -/
theorem analyze_repo_best_effort :
    ∀ (r : Repo) (m : Meta) (ts : List PyStr) (d : List (PyStr × DepResult)),
      r.meta = some m → r.topicsR = some ts →
      _get_dependencies (fun fname => r.fileByPath [fname]) = .ok d →
      ∃ a, analyze_repo r = .ok a := by
  intro r m ts d hm ht hd
  unfold analyze_repo
  rw [hm, ht, hd]
  exact ⟨_, rfl⟩

/-- Witness for `analyze_repo_best_effort`: a repository where every
accessor call other than metadata and topics fails. -/
theorem analyze_repo_best_effort_witness :
    repoDegraded.meta = some ⟨"r".toList, some "d".toList, none, none, some 10⟩ ∧
    repoDegraded.topicsR = some ["cli".toList] ∧
    _get_dependencies (fun fname => repoDegraded.fileByPath [fname]) = .ok [] ∧
    ∃ a, analyze_repo repoDegraded = .ok a :=
  ⟨rfl, rfl, by decide,
   analyze_repo_best_effort repoDegraded ⟨"r".toList, some "d".toList, none, none, some 10⟩
     ["cli".toList] [] rfl rfl (by decide)⟩

/-- C2 counterexample: for a repository whose metadata fetch succeeds but
whose `pushed_at` is `None`, the health report has only six checks whose
weights sum to 85, not the seven-entry rubric summing to 100 — the `Active`
entry is omitted entirely. -/
theorem health_seven_checks_counterexample :
    repoNoPush.meta.isSome = true ∧
    (get_repo_health repoNoPush).map (fun h => h.checks.length) = .ok 6 ∧
    (get_repo_health repoNoPush).map
      (fun h => (h.checks.map (fun c => c.weight)).sum) = .ok 85 ∧
    ¬((get_repo_health repoNoPush).map
      (fun h => (h.checks.map (fun c => c.weight)).sum) = .ok 100) :=
  ⟨rfl, by decide, by decide, by decide⟩

/-- C2 (amended): whenever `get_repo_health` returns a report, its score is
the sum of the weights of the passed checks, and the checks list carries the
full seven-entry rubric (weights summing to 100) when the repository has a
push timestamp, and the six entries without `Active` (weights summing to 85)
when `pushed_at` is `None`. -/
theorem health_checks_spec :
    ∀ (r : Repo) (m : Meta) (h : HealthReport),
      r.meta = some m → get_repo_health r = .ok h →
      h.score = ((h.checks.filter (fun c => c.passed)).map (fun c => c.weight)).sum ∧
      h.checks.map (fun c => (c.name, c.weight)) =
        (if m.pushedDaysAgo.isSome then
          [("README".toList, 20), ("LICENSE".toList, 15), (".gitignore".toList, 15),
           ("Description".toList, 10), ("Topics".toList, 10), ("Active".toList, 15),
           ("No Secrets Exposed".toList, 15)]
         else
          [("README".toList, 20), ("LICENSE".toList, 15), (".gitignore".toList, 15),
           ("Description".toList, 10), ("Topics".toList, 10),
           ("No Secrets Exposed".toList, 15)]) ∧
      (h.checks.map (fun c => c.weight)).sum =
        (if m.pushedDaysAgo.isSome then 100 else 85) := by
  intro r m h hm hok
  unfold get_repo_health at hok
  rw [hm] at hok
  cases hT : r.topicsR with
  | none => rw [hT] at hok; cases hok
  | some topics =>
    rw [hT] at hok
    dsimp only at hok
    injection hok with hX
    subst hX
    dsimp only
    cases hpd : m.pushedDaysAgo with
    | none =>
      cases h1 : r.readmeR.isSome <;>
        cases h2 : m.license.isSome <;>
          cases h3 : (r.fileByPath [".gitignore".toList]).isSome <;>
            cases h4 : (m.description.getD []).isEmpty <;>
              cases h5 : decide (0 < topics.length) <;>
                cases h6 : (scan_security r).has_critical <;>
                  simp
    | some days =>
      cases h1 : r.readmeR.isSome <;>
        cases h2 : m.license.isSome <;>
          cases h3 : (r.fileByPath [".gitignore".toList]).isSome <;>
            cases h4 : (m.description.getD []).isEmpty <;>
              cases h5 : decide (0 < topics.length) <;>
                cases h6 : (scan_security r).has_critical <;>
                  by_cases h7 : days < 180 <;>
                    simp [h7]

/-- The health report of `repoNoPush`. -/
def healthNoPushReport : HealthReport :=
  { score := 15,
    grade := "F".toList,
    checks :=
      [⟨"README".toList, false, 20⟩, ⟨"LICENSE".toList, false, 15⟩,
       ⟨".gitignore".toList, false, 15⟩, ⟨"Description".toList, false, 10⟩,
       ⟨"Topics".toList, false, 10⟩, ⟨"No Secrets Exposed".toList, true, 15⟩],
    security := { issues := [], warnings := [], score := 100, has_critical := false } }

/-- Witness for `health_checks_spec` on `repoNoPush`. -/
theorem health_checks_spec_witness :
    repoNoPush.meta = some ⟨"r".toList, none, none, none, none⟩ ∧
    get_repo_health repoNoPush = .ok healthNoPushReport ∧
    healthNoPushReport.score =
      ((healthNoPushReport.checks.filter (fun c => c.passed)).map
        (fun c => c.weight)).sum := by
  refine ⟨rfl, by decide, ?_⟩
  exact (health_checks_spec repoNoPush ⟨"r".toList, none, none, none, none⟩
    healthNoPushReport rfl (by decide)).1
